import Mathlib

/-!
# Verification of the arXiv discovery-and-deduplication engine

Shallow embedding of `src/modules/arxiv.py` (class `ArxivClient` and the
`PaperData` dataclass).  The durable stores are made explicit:

* the Ledger Store (`seen_papers.json`, a JSON object `id -> timestamp`) is
  modelled by its key set, a `List String`, since only membership and
  insertion are observable in the claims;
* the Content Cache (`paper_summaries/<id>.json`, one JSON file per record)
  is modelled as an association list `List (String × PaperData)` with
  first-match lookup; a missing or malformed file is an absent key.  The
  `json.dump`/`json.load` round trip composed with `to_dict`/`from_dict`
  is the identity on `PaperData` (a flat dataclass of strings, lists of
  strings and nulls), so the cache stores `PaperData` values directly;
* the remote service reached through `arxiv.Client` is a parameter: a page
  oracle `Nat → Except String (List RawResult)` indexed by the request
  offset (`Except.error` models the `except Exception` path of
  `search_papers`, i.e. a transport or remote-service failure);
* `print` calls and the politeness `time.sleep` are side-effect free and
  are dropped.

Python truthiness is embedded explicitly where the source relies on it
(`if existing_summary_paper.summary:` is non-emptiness of the string, not
non-blankness after `strip()`).
-/

/-- Python `str.strip()` default whitespace class (the characters relevant
to this code base; `str.strip()` with no argument removes whitespace). -/
def pyIsSpace (c : Char) : Bool :=
  c == ' ' || c == '\t' || c == '\n' || c == '\r' || c == '\x0b' || c == '\x0c'

/-- Python `s.strip()`: remove leading and trailing whitespace. -/
def pyStrip (s : String) : String :=
  ⟨((s.data.dropWhile pyIsSpace).reverse.dropWhile pyIsSpace).reverse⟩

/-- Python truthiness of an `Optional[str]`: `None` and `""` are falsy,
every non-empty string (including whitespace-only strings) is truthy. -/
def pyTruthy : Option String → Bool
  | none => false
  | some s => !s.data.isEmpty

/-- Split a character list on a separator character (Python `str.split(sep)`
semantics: `n` separators yield `n+1` groups, empty groups included). -/
def splitOnChar (sep : Char) : List Char → List (List Char)
  | [] => [[]]
  | c :: rest =>
    match splitOnChar sep rest with
    | [] => [[]]
    | g :: gs => if c == sep then [] :: g :: gs else (c :: g) :: gs

/-- Python `s.split('/')[-1]`: the last path segment of an identifier URL.
This is how the canonical record id is derived from `entry_id`. -/
def lastPathSegment (s : String) : String :=
  ⟨(splitOnChar '/' s.data).getLast?.getD []⟩

/-- Python `sep.join(parts)`. -/
def joinSep (sep : String) : List String → String
  | [] => ""
  | [s] => s
  | s :: rest => s ++ sep ++ joinSep sep rest

/-- Python `" " in term` (substring test for a single space, i.e. the term
contains a space character). -/
def containsSpaceChar (s : String) : Bool :=
  s.data.contains ' '

/-- Python `"http:".startswith` normalization in `_convert_result`:
`'https' + pdf_url[4:]` when the URL starts with `http:`. -/
def httpsUpgrade (u : String) : String :=
  if "http:".data.isPrefixOf u.data then "https" ++ ⟨u.data.drop 4⟩ else u

/-- The `PaperData` dataclass of `src/modules/arxiv.py` (field for field). -/
structure PaperData where
  id : String
  title : String
  url : String
  pdf_url : Option String := none
  doi : Option String := none
  comment : Option String := none
  published : Option String := none
  authors : Option (List String) := none
  abstract : Option String := none
  keywords : Option (List String) := none
  summary : Option String := none
  categories : Option (List String) := none
deriving DecidableEq, Repr

/-- One raw result of the remote service as consumed by `_convert_result`:
`entry_id`, `title`, `summary` (the abstract text), `categories`,
`authors` (already projected to name strings), and the optional attributes
probed with `hasattr` (`published` already rendered by `isoformat()`;
`none` models an absent attribute). -/
structure RawResult where
  entry_id : String
  title : String
  summary : String
  categories : List String
  authors : List String
  published : Option String := none
  pdf_url : Option String := none
  doi : Option String := none
  comment : Option String := none
deriving DecidableEq, Repr

/-- `ArxivClient._convert_result`: turn a raw remote result into a
`PaperData`.  The id is the last path segment of `entry_id`; the PDF URL
falls back to `https://arxiv.org/pdf/<id>.pdf` when the attribute is
absent and is upgraded to the secure scheme; `keywords` and `categories`
are both set from `result.categories`; `summary` is left null. -/
def _convert_result (result : RawResult) : PaperData :=
  let arxiv_id := lastPathSegment result.entry_id
  let pdf_url := httpsUpgrade (result.pdf_url.getD ("https://arxiv.org/pdf/" ++ arxiv_id ++ ".pdf"))
  { id := arxiv_id
    categories := some result.categories
    title := result.title
    url := result.entry_id
    published := result.published
    authors := some result.authors
    abstract := some result.summary
    keywords := some result.categories
    pdf_url := some pdf_url
    doi := result.doi
    comment := result.comment
    summary := none }

/-- The Content Cache (`paper_summaries/` directory): one entry per file,
keyed by file name; first-match lookup. -/
abbrev Cache := List (String × PaperData)

/-- `ArxivClient._load_summary_from_file`: read `paper_summaries/<id>.json`
if present; missing or malformed files are cache misses (`none`). -/
def _load_summary_from_file (cache : Cache) (paper_id : String) : Option PaperData :=
  List.lookup paper_id cache

/-- The guard of `save_summary_to_file`, negated: the record's `summary` is
non-null and non-blank after `strip()` (the §3 "enriched" invariant,
exactly as line 86 of the source tests it). -/
def isEnriched (paper_data : PaperData) : Bool :=
  match paper_data.summary with
  | none => false
  | some s => !(pyStrip s).data.isEmpty

/-- `ArxivClient.save_summary_to_file`: a no-op unless the record is
enriched; otherwise write `paper_summaries/<id>.json` (overwriting models
as a prepend under first-match lookup). -/
def save_summary_to_file (cache : Cache) (paper_data : PaperData) : Cache :=
  if isEnriched paper_data then (paper_data.id, paper_data) :: cache else cache

/-- `ArxivClient.mark_papers_as_seen`: record each paper's id in the
Ledger Store (dict key insertion; the timestamp value is not modelled). -/
def mark_papers_as_seen (seen : List String) (papers : List PaperData) : List String :=
  papers.foldl (fun s p => s.insert p.id) seen

/-- `ArxivClient._construct_query` (the `search_papers` path): categories
prefixed `cat:` and OR-joined (parenthesized when more than one); terms
OR-joined with multi-word terms wrapped in percent-encoded quotes `%22`
(parenthesized when more than one); clauses AND-joined. -/
def _construct_query (search_terms categories : Option (List String)) : String :=
  let catParts : List String :=
    match categories with
    | none => []
    | some [] => []
    | some [cat] => ["cat:" ++ cat]
    | some cats => ["(" ++ joinSep " OR " (cats.map (fun cat => "cat:" ++ cat)) ++ ")"]
  let query_parts : List String :=
    match search_terms with
    | none => catParts
    | some [] => catParts
    | some [term] =>
      catParts ++ [if containsSpaceChar term then "%22" ++ term ++ "%22" else term]
    | some terms =>
      catParts ++ ["(" ++ joinSep " OR "
        (terms.map (fun term =>
          if containsSpaceChar term then "%22" ++ term ++ "%22" else term)) ++ ")"]
  joinSep " AND " query_parts

/-- The inline query builder of `ArxivClient.search`, for list-typed
`search_terms` (for which `isinstance(search_terms, list)` is true):
multi-word terms are wrapped in literal quote marks and the OR-group is
parenthesized even for a single term. -/
def searchBuildQuery (search_terms categories : Option (List String)) : String :=
  let catParts : List String :=
    match categories with
    | none => []
    | some [] => []
    | some [cat] => ["cat:" ++ cat]
    | some cats => ["(" ++ joinSep " OR " (cats.map (fun cat => "cat:" ++ cat)) ++ ")"]
  let query_parts : List String :=
    match search_terms with
    | none => catParts
    | some [] => catParts
    | some terms =>
      catParts ++ ["(" ++ joinSep " OR "
        (terms.map (fun term =>
          if containsSpaceChar term then "\x22" ++ term ++ "\x22" else term)) ++ ")"]
  joinSep " AND " query_parts

/-- The per-candidate merge of `search_papers`/`search`: try the Content
Cache first and reuse the cached record when
`existing_summary_paper and existing_summary_paper.summary` is truthy
(Python truthiness: any non-empty `summary` string); otherwise convert
the raw result afresh. -/
def mergeCandidate (cache : Cache) (paper_id : String) (result : RawResult) : PaperData :=
  match _load_summary_from_file cache paper_id with
  | some existing =>
    if pyTruthy existing.summary then existing else _convert_result result
  | none => _convert_result result

/-- The `for paper in results:` body shared by `search_papers` and
`search`: derive the id, skip when it is in the Ledger Store (`seen`) or
was already accepted in this run (`run`), otherwise merge and accept, and
break out of the page once `max_results` is reached.  Returns the newly
accepted records of this page and the updated `seen_in_this_run` set;
`foundLen` is the number of records accepted before this page. -/
def processPage (seen : List String) (cache : Cache) (max_results : Nat) :
    Nat → List String → List RawResult → List PaperData × List String
  | _, run, [] => ([], run)
  | foundLen, run, result :: rest =>
    let paper_id := lastPathSegment result.entry_id
    if paper_id ∈ seen ∨ paper_id ∈ run then
      processPage seen cache max_results foundLen run rest
    else
      let paper_data := mergeCandidate cache paper_id result
      let run' := run.insert paper_id
      if max_results ≤ foundLen + 1 then ([paper_data], run')
      else
        let pr := processPage seen cache max_results (foundLen + 1) run' rest
        (paper_data :: pr.1, pr.2)

/-- One page of the remote service: `Except.error` is a transport or
remote-service failure (the `except Exception` arm), `Except.ok []` is an
exhausted result set. -/
abbrev Page := Except String (List RawResult)

/-- The pagination loop of `search_papers` (the `while` loop): fetch a
page at `start_index`, stop on failure or an empty page, process the page,
increment the stall counter on a zero-yield page (reset it otherwise),
advance the offset and continue while fewer than `max_results` records
are accepted and fewer than 3 consecutive zero-yield pages were seen.
Returns the accepted records and the number of page fetches issued. -/
def searchLoop (pages : Nat → Page) (seen : List String) (cache : Cache)
    (max_results request_size : Nat)
    (found : List PaperData) (run : List String) (start_index stall : Nat) :
    List PaperData × Nat :=
  if h : found.length < max_results ∧ stall < 3 then
    match pages start_index with
    | Except.error _ => (found, 1)
    | Except.ok [] => (found, 1)
    | Except.ok (r :: rest) =>
      Prod.map id (fun n => n + 1) (searchLoop pages seen cache max_results request_size
        (found ++ (processPage seen cache max_results found.length run (r :: rest)).1)
        (processPage seen cache max_results found.length run (r :: rest)).2
        (start_index + request_size)
        (if (processPage seen cache max_results found.length run (r :: rest)).1.length = 0
          then stall + 1 else 0))
  else (found, 0)
termination_by 4 * (max_results - found.length) + (3 - stall)
decreasing_by
  rcases h with ⟨h1, h2⟩
  simp only [List.length_append]
  split <;> omega

/-- `ArxivClient.search_papers`: build the query (empty query returns
immediately with no remote contact), run the pagination loop from offset
0, then mark every accepted record as seen.  Returns the accepted
records, the updated Ledger Store, and the number of page fetches. -/
def search_papers (pages : Nat → Page) (seen : List String) (cache : Cache)
    (search_terms categories : Option (List String))
    (max_results request_size : Nat) :
    List PaperData × List String × Nat :=
  let query := _construct_query search_terms categories
  if query = "" then ([], seen, 0)
  else
    let res := searchLoop pages seen cache max_results request_size [] [] 0 0
    (res.1, mark_papers_as_seen seen res.1, res.2)

/-- `ArxivClient.search`: build the (differently quoted) query, issue one
request for up to 100 results — unconditionally, even when the query is
empty — then run the same accept/skip/merge body and mark the accepted
records as seen.  The third component counts remote requests (always 1). -/
def search (fetchResults : String → List RawResult) (seen : List String) (cache : Cache)
    (search_terms categories : Option (List String)) (max_results : Nat) :
    List PaperData × List String × Nat :=
  let query := searchBuildQuery search_terms categories
  let results := fetchResults query
  let pr := processPage seen cache max_results 0 [] results
  (pr.1, mark_papers_as_seen seen pr.1, 1)

/-- `ArxivClient.get_paper_by_id`: reuse the cached record when its
`summary` is truthy (inserting the id into the Ledger Store if absent);
otherwise fetch by id (`none` models `StopIteration`, the not-found
outcome), convert, and insert the id; not-found returns `none` and leaves
the Ledger Store unchanged. -/
def get_paper_by_id (fetchById : String → Option RawResult)
    (seen : List String) (cache : Cache) (paper_id : String) :
    Option PaperData × List String :=
  match _load_summary_from_file cache paper_id with
  | some existing =>
    if pyTruthy existing.summary then (some existing, seen.insert paper_id)
    else
      match fetchById paper_id with
      | some result => (some (_convert_result result), seen.insert paper_id)
      | none => (none, seen)
  | none =>
    match fetchById paper_id with
    | some result => (some (_convert_result result), seen.insert paper_id)
    | none => (none, seen)

/-- `ArxivClient.get_pdf_url`: return the paper's PDF URL when
`paper and paper.pdf_url` is truthy, else raise `ValueError` (embedded as
`Except.error` carrying the exception message). -/
def get_pdf_url (fetchById : String → Option RawResult)
    (seen : List String) (cache : Cache) (paper_id : String) :
    Except String String × List String :=
  let r := get_paper_by_id fetchById seen cache paper_id
  match r.1 with
  | some paper =>
    match paper.pdf_url with
    | some u =>
      if u.data.isEmpty then
        (Except.error ("Paper with ID " ++ paper_id ++ " not found or has no PDF URL."), r.2)
      else (Except.ok u, r.2)
    | none =>
      (Except.error ("Paper with ID " ++ paper_id ++ " not found or has no PDF URL."), r.2)
  | none =>
    (Except.error ("Paper with ID " ++ paper_id ++ " not found or has no PDF URL."), r.2)

/-- Well-formedness of the Content Cache as the storage contract keeps it
(`save_summary_to_file` names the file after `paper_data.id`): every
entry is keyed by the id of the record it stores. -/
def CacheWF (cache : Cache) : Prop :=
  ∀ e ∈ cache, (e.2).id = e.1

/-- A page whose every raw result derives a record id already present in
the given ledger: it is fetched successfully and non-empty, yet
contributes zero newly-accepted records (a "stall" page). -/
def pageAllSeen (ledger : List String) (pg : Page) : Prop :=
  ∃ l, pg = Except.ok l ∧ l ≠ [] ∧ ∀ r ∈ l, lastPathSegment r.entry_id ∈ ledger

/-- A page outcome on which the pagination loop stops unconditionally: an
exhausted result set or a transport/remote-service failure. -/
def pageStops (pg : Page) : Prop :=
  pg = Except.ok [] ∨ ∃ e, pg = Except.error e

/-- Concrete remote result used in witnesses and counterexamples. -/
def rawA : RawResult :=
  { entry_id := "http://arxiv.org/abs/2401.00001v1"
    title := "Paper A"
    summary := "abstract A"
    categories := ["cs.AI"]
    authors := ["Alice"] }

/-- A second concrete remote result. -/
def rawB : RawResult :=
  { entry_id := "http://arxiv.org/abs/2401.00002v1"
    title := "Paper B"
    summary := "abstract B"
    categories := ["cs.LG"]
    authors := ["Bob"] }

/-- A remote service whose first page holds `rawA` and `rawB` and whose
later pages are exhausted. -/
def pagesAB : Nat → Page :=
  fun off => if off = 0 then Except.ok [rawA, rawB] else Except.ok []

/-- A remote service whose first page holds only `rawA` and whose later
pages are exhausted. -/
def pagesA : Nat → Page :=
  fun off => if off = 0 then Except.ok [rawA] else Except.ok []

/-- A cached record whose `summary` is whitespace-only: truthy for Python
(`"   "` is a non-empty string) yet not enriched per the §3 invariant. -/
def cachedWS : PaperData :=
  { id := "2401.00001v1"
    title := "Cached A"
    url := "http://arxiv.org/abs/2401.00001v1"
    summary := some "   " }

/-- A Content Cache holding only `cachedWS`. -/
def cacheWS : Cache := [("2401.00001v1", cachedWS)]

/-- An enriched record for the persistence round-trip witness. -/
def enrichedRec : PaperData :=
  { id := "w1"
    title := "Witness paper"
    url := "http://arxiv.org/abs/w1"
    summary := some "A real summary." }

/-- A cached, enriched record whose `pdf_url` is present but empty. -/
def pdfEmptyRec : PaperData :=
  { id := "p2"
    title := "No pdf"
    url := "http://arxiv.org/abs/p2"
    pdf_url := some ""
    summary := some "cached summary" }

/-- A Content Cache holding only `pdfEmptyRec`. -/
def cachePdfEmpty : Cache := [("p2", pdfEmptyRec)]

/-- A cached, enriched record with a usable `pdf_url`. -/
def goodRec : PaperData :=
  { id := "p3"
    title := "Good"
    url := "http://arxiv.org/abs/p3"
    pdf_url := some "https://arxiv.org/pdf/p3.pdf"
    summary := some "good summary" }

/-- A Content Cache holding only `goodRec`. -/
def cacheGood : Cache := [("p3", goodRec)]

theorem load_id_of_cacheWF {cache : Cache} (hwf : CacheWF cache) {pid : String}
    {p : PaperData} (h : _load_summary_from_file cache pid = some p) : p.id = pid := by
  induction cache with
  | nil => simp [_load_summary_from_file] at h
  | cons e t ih =>
    rw [_load_summary_from_file, List.lookup] at h
    by_cases hk : pid == e.1
    · simp only [hk] at h
      cases h
      have h2 := hwf e (List.mem_cons_self e t)
      rw [h2]
      exact (eq_of_beq hk).symm
    · simp only [Bool.not_eq_true] at hk
      simp only [hk] at h
      exact ih (fun x hx => hwf x (List.mem_cons_of_mem e hx)) h

theorem mergeCandidate_id {cache : Cache} (hwf : CacheWF cache) (r : RawResult) :
    (mergeCandidate cache (lastPathSegment r.entry_id) r).id = lastPathSegment r.entry_id := by
  rw [mergeCandidate]
  split
  · rename_i existing heq
    split
    · exact load_id_of_cacheWF hwf heq
    · rfl
  · rfl

theorem mem_mark_iff (seen : List String) (papers : List PaperData) (x : String) :
    x ∈ mark_papers_as_seen seen papers ↔ x ∈ seen ∨ ∃ p ∈ papers, p.id = x := by
  induction papers generalizing seen with
  | nil => simp [mark_papers_as_seen]
  | cons p t ih =>
    simp only [mark_papers_as_seen, List.foldl_cons] at ih ⊢
    rw [ih (seen.insert p.id)]
    constructor
    · rintro (hx | ⟨q, hq, hid⟩)
      · rcases List.mem_insert_iff.mp hx with h | h
        · exact Or.inr ⟨p, List.mem_cons_self p t, h.symm⟩
        · exact Or.inl h
      · exact Or.inr ⟨q, List.mem_cons_of_mem p hq, hid⟩
    · rintro (hx | ⟨q, hq, hid⟩)
      · exact Or.inl (List.mem_insert_of_mem hx)
      · rcases List.mem_cons.mp hq with h | h
        · subst h
          exact Or.inl (hid ▸ List.mem_insert_self q.id seen)
        · exact Or.inr ⟨q, h, hid⟩

theorem processPage_allSeen (seen : List String) (cache : Cache) (m : Nat) :
    ∀ (l : List RawResult) (foundLen : Nat) (run : List String),
      (∀ r ∈ l, lastPathSegment r.entry_id ∈ seen) →
      processPage seen cache m foundLen run l = ([], run) := by
  intro l
  induction l with
  | nil => intro foundLen run _; rfl
  | cons r rest ih =>
    intro foundLen run hall
    rw [processPage]
    rw [if_pos (Or.inl (hall r (List.mem_cons_self r rest)))]
    exact ih foundLen run (fun x hx => hall x (List.mem_cons_of_mem r hx))

theorem processPage_spec (seen : List String) (cache : Cache) (m : Nat)
    (hwf : CacheWF cache) :
    ∀ (l : List RawResult) (foundLen : Nat) (run : List String),
      ((processPage seen cache m foundLen run l).1.map (fun p => p.id)).Nodup ∧
      (∀ p ∈ (processPage seen cache m foundLen run l).1, p.id ∉ seen ∧ p.id ∉ run) ∧
      (∀ x ∈ run, x ∈ (processPage seen cache m foundLen run l).2) ∧
      (∀ p ∈ (processPage seen cache m foundLen run l).1,
        p.id ∈ (processPage seen cache m foundLen run l).2) ∧
      (∀ x ∈ (processPage seen cache m foundLen run l).2,
        x ∈ run ∨ ∃ p ∈ (processPage seen cache m foundLen run l).1, p.id = x) := by
  intro l
  induction l with
  | nil =>
    intro foundLen run
    simp [processPage]
  | cons r rest ih =>
    intro foundLen run
    rw [processPage]
    by_cases hskip : lastPathSegment r.entry_id ∈ seen ∨ lastPathSegment r.entry_id ∈ run
    · rw [if_pos hskip]
      exact ih foundLen run
    · rw [if_neg hskip]
      push_neg at hskip
      have hid := mergeCandidate_id hwf r
      by_cases hbrk : m ≤ foundLen + 1
      · rw [if_pos hbrk]
        refine ⟨by simp, ?_, ?_, ?_, ?_⟩
        · intro p hp
          simp only [List.mem_singleton] at hp
          subst hp
          rw [hid]
          exact hskip
        · intro x hx
          simp [List.mem_insert_iff, hx]
        · intro p hp
          simp only [List.mem_singleton] at hp
          subst hp
          rw [hid]
          simp [List.mem_insert_iff]
        · intro x hx
          rcases (List.mem_insert_iff.mp hx) with h | h
          · exact Or.inr ⟨mergeCandidate cache (lastPathSegment r.entry_id) r, by simp, by rw [hid, h]⟩
          · exact Or.inl h
      · rw [if_neg hbrk]
        obtain ⟨i1, i2, i3, i4, i5⟩ := ih (foundLen + 1) ((run.insert (lastPathSegment r.entry_id)))
        refine ⟨?_, ?_, ?_, ?_, ?_⟩
        · simp only [List.map_cons, List.nodup_cons]
          refine ⟨?_, i1⟩
          rw [hid]
          intro hmem
          rcases List.mem_map.mp hmem with ⟨p, hp, hpid⟩
          have := (i2 p hp).2
          rw [hpid] at this
          exact this (List.mem_insert_self _ _)
        · intro p hp
          rcases List.mem_cons.mp hp with h | h
          · subst h
            rw [hid]
            exact hskip
          · obtain ⟨ha, hb⟩ := i2 p h
            exact ⟨ha, fun hc => hb (List.mem_insert_of_mem hc)⟩
        · intro x hx
          exact i3 x (List.mem_insert_of_mem hx)
        · intro p hp
          rcases List.mem_cons.mp hp with h | h
          · subst h
            rw [hid]
            exact i3 _ (List.mem_insert_self _ _)
          · exact i4 p h
        · intro x hx
          rcases i5 x hx with h | ⟨p, hp, hpid⟩
          · rcases List.mem_insert_iff.mp h with h | h
            · exact Or.inr ⟨mergeCandidate cache (lastPathSegment r.entry_id) r,
                List.mem_cons_self _ _, by rw [hid, h]⟩
            · exact Or.inl h
          · exact Or.inr ⟨p, List.mem_cons_of_mem _ hp, hpid⟩

theorem processPage_complete (seen : List String) (cache : Cache) (m : Nat)
    (hwf : CacheWF cache) :
    ∀ (l : List RawResult) (foundLen : Nat) (run : List String),
      foundLen + (processPage seen cache m foundLen run l).1.length < m →
      ∀ r ∈ l, lastPathSegment r.entry_id ∈ seen ∨ lastPathSegment r.entry_id ∈ run ∨
        ∃ p ∈ (processPage seen cache m foundLen run l).1,
          p.id = lastPathSegment r.entry_id := by
  intro l
  induction l with
  | nil => intro foundLen run _ r hr; cases hr
  | cons r0 rest ih =>
    intro foundLen run hlt r hr
    rw [processPage] at hlt ⊢
    by_cases hskip : lastPathSegment r0.entry_id ∈ seen ∨ lastPathSegment r0.entry_id ∈ run
    · rw [if_pos hskip] at hlt ⊢
      rcases List.mem_cons.mp hr with h | h
      · subst h
        rcases hskip with h' | h'
        · exact Or.inl h'
        · exact Or.inr (Or.inl h')
      · exact ih foundLen run hlt r h
    · rw [if_neg hskip] at hlt ⊢
      have hid := mergeCandidate_id hwf r0
      by_cases hbrk : m ≤ foundLen + 1
      · rw [if_pos hbrk] at hlt
        simp only [List.length_singleton] at hlt
        omega
      · rw [if_neg hbrk] at hlt ⊢
        simp only [List.length_cons] at hlt
        rcases List.mem_cons.mp hr with h | h
        · subst h
          exact Or.inr (Or.inr ⟨mergeCandidate cache (lastPathSegment r.entry_id) r,
            List.mem_cons_self _ _, hid⟩)
        · have hlt' : (foundLen + 1) +
              (processPage seen cache m (foundLen + 1)
                (run.insert (lastPathSegment r0.entry_id)) rest).1.length < m := by
            omega
          rcases ih (foundLen + 1) (run.insert (lastPathSegment r0.entry_id)) hlt' r h with
            h' | h' | ⟨p, hp, hpid⟩
          · exact Or.inl h'
          · rcases List.mem_insert_iff.mp h' with h'' | h''
            · exact Or.inr (Or.inr ⟨mergeCandidate cache (lastPathSegment r0.entry_id) r0,
                List.mem_cons_self _ _, by rw [hid, h'']⟩)
            · exact Or.inr (Or.inl h'')
          · exact Or.inr (Or.inr ⟨p, List.mem_cons_of_mem _ hp, hpid⟩)

theorem searchLoop_eq_done {pages : Nat → Page} {seen : List String} {cache : Cache}
    {m rs : Nat} {found : List PaperData} {run : List String} {si stall : Nat}
    (h : ¬(found.length < m ∧ stall < 3)) :
    searchLoop pages seen cache m rs found run si stall = (found, 0) := by
  rw [searchLoop]
  exact dif_neg h

theorem searchLoop_eq_error {pages : Nat → Page} {seen : List String} {cache : Cache}
    {m rs : Nat} {found : List PaperData} {run : List String} {si stall : Nat}
    (h : found.length < m ∧ stall < 3) {e : String} (hp : pages si = Except.error e) :
    searchLoop pages seen cache m rs found run si stall = (found, 1) := by
  rw [searchLoop, dif_pos h, hp]

theorem searchLoop_eq_empty {pages : Nat → Page} {seen : List String} {cache : Cache}
    {m rs : Nat} {found : List PaperData} {run : List String} {si stall : Nat}
    (h : found.length < m ∧ stall < 3) (hp : pages si = Except.ok []) :
    searchLoop pages seen cache m rs found run si stall = (found, 1) := by
  rw [searchLoop, dif_pos h, hp]

theorem searchLoop_eq_step {pages : Nat → Page} {seen : List String} {cache : Cache}
    {m rs : Nat} {found : List PaperData} {run : List String} {si stall : Nat}
    (h : found.length < m ∧ stall < 3) {r : RawResult} {rest : List RawResult}
    (hp : pages si = Except.ok (r :: rest)) :
    searchLoop pages seen cache m rs found run si stall =
      ((searchLoop pages seen cache m rs
          (found ++ (processPage seen cache m found.length run (r :: rest)).1)
          (processPage seen cache m found.length run (r :: rest)).2
          (si + rs)
          (if (processPage seen cache m found.length run (r :: rest)).1.length = 0
            then stall + 1 else 0)).1,
        (searchLoop pages seen cache m rs
          (found ++ (processPage seen cache m found.length run (r :: rest)).1)
          (processPage seen cache m found.length run (r :: rest)).2
          (si + rs)
          (if (processPage seen cache m found.length run (r :: rest)).1.length = 0
            then stall + 1 else 0)).2 + 1) := by
  rw [searchLoop, dif_pos h, hp]
  rfl

theorem searchLoop_extends (pages : Nat → Page) (seen : List String) (cache : Cache)
    (m rs : Nat) :
    ∀ (found : List PaperData) (run : List String) (si stall : Nat),
      ∃ t, (searchLoop pages seen cache m rs found run si stall).1 = found ++ t := by
  intro found run si stall
  induction found, run, si, stall using searchLoop.induct pages seen cache m rs with
  | case1 found run si stall h e hp =>
    exact ⟨[], by rw [searchLoop_eq_error h hp]; simp⟩
  | case2 found run si stall h hp =>
    exact ⟨[], by rw [searchLoop_eq_empty h hp]; simp⟩
  | case3 found run si stall h r rest hp ih =>
    obtain ⟨t, ht⟩ := ih
    refine ⟨(processPage seen cache m found.length run (r :: rest)).1 ++ t, ?_⟩
    rw [searchLoop_eq_step h hp]
    rw [← List.append_assoc]
    exact ht
  | case4 found run si stall h =>
    exact ⟨[], by rw [searchLoop_eq_done h]; simp⟩

theorem searchLoop_stalls (pages : Nat → Page) (seen : List String) (cache : Cache)
    (m rs : Nat) :
    ∀ (found : List PaperData) (run : List String) (si stall : Nat),
      (∀ j, stall + j < 3 →
        (∀ i, i < j → pageAllSeen seen (pages (si + i * rs))) →
        pageStops (pages (si + j * rs)) ∨ pageAllSeen seen (pages (si + j * rs))) →
      (searchLoop pages seen cache m rs found run si stall).1 = found := by
  intro found run si stall
  induction found, run, si, stall using searchLoop.induct pages seen cache m rs with
  | case1 found run si stall h e hp =>
    intro _
    rw [searchLoop_eq_error h hp]
  | case2 found run si stall h hp =>
    intro _
    rw [searchLoop_eq_empty h hp]
  | case4 found run si stall h =>
    intro _
    rw [searchLoop_eq_done h]
  | case3 found run si stall h r rest hp ih =>
    intro H
    simp only [dite_eq_ite] at ih
    have h0 := H 0 (by omega) (fun i hi => absurd hi (Nat.not_lt_zero i))
    rw [Nat.zero_mul, Nat.add_zero] at h0
    rcases h0 with hstop | ⟨l, hl, hne, hs⟩
    · rcases hstop with hemp | ⟨e, herr⟩
      · rw [hp] at hemp
        cases hemp
      · rw [hp] at herr
        cases herr
    · rw [hp] at hl
      injection hl with hl2
      subst hl2
      have hzero : processPage seen cache m found.length run (r :: rest) = ([], run) :=
        processPage_allSeen seen cache m (r :: rest) found.length run hs
      have hstall : (if (processPage seen cache m found.length run (r :: rest)).1.length = 0
          then stall + 1 else 0) = stall + 1 := by
        rw [hzero]
        simp
      have H' : ∀ j, (stall + 1) + j < 3 →
          (∀ i, i < j → pageAllSeen seen (pages ((si + rs) + i * rs))) →
          pageStops (pages ((si + rs) + j * rs)) ∨
            pageAllSeen seen (pages ((si + rs) + j * rs)) := by
        intro j hj hpre
        rw [show (si + rs) + j * rs = si + (j + 1) * rs by ring]
        apply H (j + 1) (by omega)
        intro i hi
        cases i with
        | zero =>
          rw [Nat.zero_mul, Nat.add_zero]
          exact ⟨r :: rest, hp, List.cons_ne_nil r rest, hs⟩
        | succ i2 =>
          rw [show si + (i2 + 1) * rs = (si + rs) + i2 * rs by ring]
          exact hpre i2 (by omega)
      have hres := ih (by rw [hstall]; exact H')
      rw [hzero] at hres
      simp only [List.append_nil] at hres
      rw [searchLoop_eq_step h hp, hzero]
      simpa using hres

theorem searchLoop_count_le (pages : Nat → Page) (seen : List String) (cache : Cache)
    (m rs : Nat) :
    ∀ (found : List PaperData) (run : List String) (si stall : Nat),
      (∀ off, pageAllSeen seen (pages off)) →
      (searchLoop pages seen cache m rs found run si stall).2 ≤ 3 - stall := by
  intro found run si stall
  induction found, run, si, stall using searchLoop.induct pages seen cache m rs with
  | case1 found run si stall h e hp =>
    intro _
    rw [searchLoop_eq_error h hp]
    omega
  | case2 found run si stall h hp =>
    intro _
    rw [searchLoop_eq_empty h hp]
    omega
  | case4 found run si stall h =>
    intro _
    rw [searchLoop_eq_done h]
    omega
  | case3 found run si stall h r rest hp ih =>
    intro hAll
    simp only [dite_eq_ite] at ih
    obtain ⟨l, hl, hne, hs⟩ := hAll si
    rw [hp] at hl
    injection hl with hl2
    subst hl2
    have hzero : processPage seen cache m found.length run (r :: rest) = ([], run) :=
      processPage_allSeen seen cache m (r :: rest) found.length run hs
    have hstall : (if (processPage seen cache m found.length run (r :: rest)).1.length = 0
        then stall + 1 else 0) = stall + 1 := by
      rw [hzero]
      simp
    have hres := ih hAll
    rw [hstall] at hres
    rw [searchLoop_eq_step h hp]
    simp only
    rw [hstall]
    omega

theorem searchLoop_invariant (pages : Nat → Page) (seen : List String) (cache : Cache)
    (m rs : Nat) (hwf : CacheWF cache) :
    ∀ (found : List PaperData) (run : List String) (si stall : Nat),
      ((found.map (fun p => p.id)).Nodup) →
      (∀ p ∈ found, p.id ∉ seen) →
      (∀ p ∈ found, p.id ∈ run) →
      (((searchLoop pages seen cache m rs found run si stall).1.map (fun p => p.id)).Nodup ∧
        ∀ p ∈ (searchLoop pages seen cache m rs found run si stall).1, p.id ∉ seen) := by
  intro found run si stall
  induction found, run, si, stall using searchLoop.induct pages seen cache m rs with
  | case1 found run si stall h e hp =>
    intro h1 h2 _
    rw [searchLoop_eq_error h hp]
    exact ⟨h1, h2⟩
  | case2 found run si stall h hp =>
    intro h1 h2 _
    rw [searchLoop_eq_empty h hp]
    exact ⟨h1, h2⟩
  | case4 found run si stall h =>
    intro h1 h2 _
    rw [searchLoop_eq_done h]
    exact ⟨h1, h2⟩
  | case3 found run si stall h r rest hp ih =>
    intro h1 h2 h3
    obtain ⟨i1, i2, i3, i4, i5⟩ := processPage_spec seen cache m hwf (r :: rest) found.length run
    have n1 : ((found ++ (processPage seen cache m found.length run (r :: rest)).1).map
        (fun p => p.id)).Nodup := by
      rw [List.map_append, List.nodup_append]
      refine ⟨h1, i1, ?_⟩
      intro a ha hb
      rcases List.mem_map.mp ha with ⟨p, hpmem, hpe⟩
      rcases List.mem_map.mp hb with ⟨q, hqmem, hqe⟩
      have hqr := (i2 q hqmem).2
      rw [hqe, ← hpe] at hqr
      exact hqr (h3 p hpmem)
    have n2 : ∀ p ∈ found ++ (processPage seen cache m found.length run (r :: rest)).1,
        p.id ∉ seen := by
      intro p hpmem
      rcases List.mem_append.mp hpmem with hm | hm
      · exact h2 p hm
      · exact (i2 p hm).1
    have n3 : ∀ p ∈ found ++ (processPage seen cache m found.length run (r :: rest)).1,
        p.id ∈ (processPage seen cache m found.length run (r :: rest)).2 := by
      intro p hpmem
      rcases List.mem_append.mp hpmem with hm | hm
      · exact i3 p.id (h3 p hm)
      · exact i4 p hm
    rw [searchLoop_eq_step h hp]
    exact ih n1 n2 n3

theorem searchLoop_post (pages : Nat → Page) (seen : List String) (cache : Cache)
    (m rs : Nat) (hwf : CacheWF cache) :
    ∀ (found : List PaperData) (run : List String) (si stall : Nat),
      (∀ x ∈ run, x ∈ seen ∨ ∃ p ∈ found, p.id = x) →
      (searchLoop pages seen cache m rs found run si stall).1.length < m →
      ∀ j, stall + j < 3 →
        (∀ i, i < j → pageAllSeen
          (mark_papers_as_seen seen (searchLoop pages seen cache m rs found run si stall).1)
          (pages (si + i * rs))) →
        pageStops (pages (si + j * rs)) ∨ pageAllSeen
          (mark_papers_as_seen seen (searchLoop pages seen cache m rs found run si stall).1)
          (pages (si + j * rs)) := by
  intro found run si stall
  induction found, run, si, stall using searchLoop.induct pages seen cache m rs with
  | case1 found run si stall h e hp =>
    intro _ _ j _ hpre
    cases j with
    | zero =>
      rw [Nat.zero_mul, Nat.add_zero]
      exact Or.inl (Or.inr ⟨e, hp⟩)
    | succ j2 =>
      have h0 := hpre 0 (Nat.succ_pos j2)
      rw [Nat.zero_mul, Nat.add_zero] at h0
      obtain ⟨l, hl, _, _⟩ := h0
      rw [hp] at hl
      cases hl
  | case2 found run si stall h hp =>
    intro _ _ j _ hpre
    cases j with
    | zero =>
      rw [Nat.zero_mul, Nat.add_zero]
      exact Or.inl (Or.inl hp)
    | succ j2 =>
      have h0 := hpre 0 (Nat.succ_pos j2)
      rw [Nat.zero_mul, Nat.add_zero] at h0
      obtain ⟨l, hl, hne, _⟩ := h0
      rw [hp] at hl
      injection hl with hl2
      exact absurd hl2.symm hne
  | case4 found run si stall h =>
    intro _ hlt j hj _
    rw [searchLoop_eq_done h] at hlt
    exact absurd (And.intro hlt (by omega)) h
  | case3 found run si stall h r rest hp ih =>
    intro hrun hlt j hj hpre
    simp only [dite_eq_ite] at ih
    rw [searchLoop_eq_step h hp] at hlt hpre ⊢
    simp only at hlt hpre ⊢
    obtain ⟨t, ht⟩ := searchLoop_extends pages seen cache m rs
      (found ++ (processPage seen cache m found.length run (r :: rest)).1)
      (processPage seen cache m found.length run (r :: rest)).2
      (si + rs)
      (if (processPage seen cache m found.length run (r :: rest)).1.length = 0
        then stall + 1 else 0)
    obtain ⟨i1, i2, i3, i4, i5⟩ := processPage_spec seen cache m hwf (r :: rest) found.length run
    have hsub : found.length +
        (processPage seen cache m found.length run (r :: rest)).1.length < m := by
      have := congrArg List.length ht
      simp only [List.length_append] at this
      omega
    have hcomp := processPage_complete seen cache m hwf (r :: rest) found.length run hsub
    have hmemF : ∀ q : PaperData,
        (q ∈ found ∨ q ∈ (processPage seen cache m found.length run (r :: rest)).1) →
        q ∈ (searchLoop pages seen cache m rs
          (found ++ (processPage seen cache m found.length run (r :: rest)).1)
          (processPage seen cache m found.length run (r :: rest)).2
          (si + rs)
          (if (processPage seen cache m found.length run (r :: rest)).1.length = 0
            then stall + 1 else 0)).1 := by
      intro q hq
      rw [ht]
      rcases hq with hq | hq
      · exact List.mem_append_left t (List.mem_append_left _ hq)
      · exact List.mem_append_left t (List.mem_append_right found hq)
    cases j with
    | zero =>
      rw [Nat.zero_mul, Nat.add_zero]
      refine Or.inr ⟨r :: rest, hp, List.cons_ne_nil r rest, ?_⟩
      intro r2 hr2
      rw [mem_mark_iff]
      rcases hcomp r2 hr2 with hc | hc | ⟨p, hpmem, hpid⟩
      · exact Or.inl hc
      · rcases hrun _ hc with hc2 | ⟨p, hpmem, hpid⟩
        · exact Or.inl hc2
        · exact Or.inr ⟨p, hmemF p (Or.inl hpmem), hpid⟩
      · exact Or.inr ⟨p, hmemF p (Or.inr hpmem), hpid⟩
    | succ j2 =>
      have hrun2 : ∀ x ∈ (processPage seen cache m found.length run (r :: rest)).2,
          x ∈ seen ∨ ∃ p ∈ found ++ (processPage seen cache m found.length run (r :: rest)).1,
            p.id = x := by
        intro x hx
        rcases i5 x hx with hc | ⟨p, hpmem, hpid⟩
        · rcases hrun x hc with hc2 | ⟨p, hpmem, hpid⟩
          · exact Or.inl hc2
          · exact Or.inr ⟨p, List.mem_append_left _ hpmem, hpid⟩
        · exact Or.inr ⟨p, List.mem_append_right found hpmem, hpid⟩
      have hj2 : (if (processPage seen cache m found.length run (r :: rest)).1.length = 0
          then stall + 1 else 0) + j2 < 3 := by
        split <;> omega
      have hpre2 : ∀ i, i < j2 → pageAllSeen
          (mark_papers_as_seen seen (searchLoop pages seen cache m rs
            (found ++ (processPage seen cache m found.length run (r :: rest)).1)
            (processPage seen cache m found.length run (r :: rest)).2
            (si + rs)
            (if (processPage seen cache m found.length run (r :: rest)).1.length = 0
              then stall + 1 else 0)).1)
          (pages ((si + rs) + i * rs)) := by
        intro i hi
        rw [show (si + rs) + i * rs = si + (i + 1) * rs by ring]
        exact hpre (i + 1) (by omega)
      have hres := ih hrun2 hlt j2 hj2 hpre2
      rw [show si + (j2 + 1) * rs = (si + rs) + j2 * rs by ring]
      exact hres

theorem string_eq_empty_iff (s : String) : s = "" ↔ s.data = [] := by
  constructor
  · intro h
    rw [h]
  · intro h
    cases s with
    | mk data =>
      rw [show ("" : String) = ⟨[]⟩ from rfl]
      exact congrArg _ h

theorem pyTruthy_some_iff (s : String) : pyTruthy (some s) = true ↔ s ≠ "" := by
  rw [pyTruthy]
  rw [Bool.not_eq_true']
  rw [← Bool.not_eq_true]
  constructor
  · intro h hc
    apply h
    rw [List.isEmpty_iff, ← string_eq_empty_iff]
    exact hc
  · intro h hc
    apply h
    rw [string_eq_empty_iff]
    rw [List.isEmpty_iff] at hc
    exact hc

/-- C2: if every page the remote service returns is non-empty yet consists
only of records whose ids are already in the Ledger Store (so every page
contributes zero newly-accepted records), `search_papers` issues at most 3
page fetches before its pagination loop stops, for every `max_results`.
The stall accounting itself is the `stall` argument of `searchLoop`:
a zero-yield page recurses at `stall + 1`, a yielding page at `0`. -/
theorem c2_stall_bound (pages : Nat → Page) (seen : List String) (cache : Cache)
    (search_terms categories : Option (List String)) (max_results request_size : Nat)
    (hAll : ∀ off, pageAllSeen seen (pages off)) :
    (search_papers pages seen cache search_terms categories max_results request_size).2.2 ≤ 3 ∧
    ∀ (pg : Nat → Page) (sn run2 : List String) (ca : Cache) (m2 rs2 : Nat)
      (found : List PaperData) (si stall : Nat) (r : RawResult) (rest : List RawResult),
      found.length < m2 → stall < 3 → pg si = Except.ok (r :: rest) →
      searchLoop pg sn ca m2 rs2 found run2 si stall =
        Prod.map id (fun n => n + 1) (searchLoop pg sn ca m2 rs2
          (found ++ (processPage sn ca m2 found.length run2 (r :: rest)).1)
          (processPage sn ca m2 found.length run2 (r :: rest)).2
          (si + rs2)
          (if (processPage sn ca m2 found.length run2 (r :: rest)).1.length = 0
            then stall + 1 else 0)) := by
  constructor
  · by_cases hq : _construct_query search_terms categories = ""
    · simp only [search_papers, if_pos hq]
      omega
    · simp only [search_papers, if_neg hq]
      have hle := searchLoop_count_le pages seen cache max_results request_size [] [] 0 0 hAll
      omega
  · intro pg sn run2 ca m2 rs2 found si stall r rest hlen hst hpg
    rw [searchLoop_eq_step (And.intro hlen hst) hpg]
    rfl

/-- C2 witness: a remote service that always returns the single already-seen
record `rawA`; the search issues at most 3 fetches. -/
theorem c2_stall_bound_witness :
    (search_papers (fun _ => Except.ok [rawA]) ["2401.00001v1"] [] (some ["q"]) none
      10 20).2.2 ≤ 3 := by
  refine (c2_stall_bound (fun _ => Except.ok [rawA]) ["2401.00001v1"] [] (some ["q"]) none
    10 20 ?_).1
  intro off
  refine ⟨[rawA], rfl, by simp, ?_⟩
  intro r hr
  rw [List.mem_singleton] at hr
  subst hr
  decide

/-- C3: the records returned by a single `search_papers` call have pairwise
distinct ids, and none of those ids was in the Ledger Store when the call
started, provided the Content Cache satisfies its storage contract (every
entry is keyed by the id of the record it stores). -/
theorem c3_dedup (pages : Nat → Page) (seen : List String) (cache : Cache)
    (search_terms categories : Option (List String)) (max_results request_size : Nat)
    (hwf : CacheWF cache) :
    (((search_papers pages seen cache search_terms categories max_results
        request_size).1.map (fun p => p.id)).Nodup) ∧
    ∀ p ∈ (search_papers pages seen cache search_terms categories max_results request_size).1,
      p.id ∉ seen := by
  by_cases hq : _construct_query search_terms categories = ""
  · simp only [search_papers, if_pos hq]
    exact ⟨List.nodup_nil, by intro p hp; cases hp⟩
  · simp only [search_papers, if_neg hq]
    exact searchLoop_invariant pages seen cache max_results request_size hwf [] [] 0 0
      List.nodup_nil (by intro p hp; cases hp) (by intro p hp; cases hp)

/-- C3 witness at a concrete service, ledger and (empty) cache. -/
theorem c3_dedup_witness :
    (((search_papers pagesAB ["x"] [] (some ["q"]) none 5 20).1.map
        (fun p => p.id)).Nodup) ∧
    ∀ p ∈ (search_papers pagesAB ["x"] [] (some ["q"]) none 5 20).1, p.id ∉ ["x"] :=
  c3_dedup pagesAB ["x"] [] (some ["q"]) none 5 20 (by intro e he; cases he)

/-- C4: a transport or remote-service failure at any page fetch makes the
pagination loop stop at that fetch with the records accepted so far (the
embedding is total, so no exception reaches the caller), and whenever the
query is non-empty the Ledger Store returned by `search_papers` is exactly
the input ledger with every returned record marked as seen. -/
theorem c4_error_recovery (pages : Nat → Page) (seen : List String) (cache : Cache)
    (max_results request_size : Nat) (found : List PaperData) (run : List String)
    (si stall : Nat) (e : String)
    (hguard : found.length < max_results ∧ stall < 3)
    (herr : pages si = Except.error e) :
    searchLoop pages seen cache max_results request_size found run si stall = (found, 1) ∧
    ∀ (search_terms categories : Option (List String)),
      _construct_query search_terms categories ≠ "" →
      (search_papers pages seen cache search_terms categories max_results request_size).2.1 =
        mark_papers_as_seen seen
          (search_papers pages seen cache search_terms categories max_results request_size).1 := by
  constructor
  · exact searchLoop_eq_error hguard herr
  · intro search_terms categories hq
    simp only [search_papers, if_neg hq]

/-- C4 witness: the very first fetch fails; the call returns no records,
one fetch was issued, and the marking equation holds. -/
theorem c4_error_recovery_witness :
    searchLoop (fun _ => Except.error "boom") [] [] 5 20 [] [] 0 0 = ([], 1) ∧
    ∀ (search_terms categories : Option (List String)),
      _construct_query search_terms categories ≠ "" →
      (search_papers (fun _ => Except.error "boom") [] [] search_terms categories 5 20).2.1 =
        mark_papers_as_seen []
          (search_papers (fun _ => Except.error "boom") [] [] search_terms categories 5 20).1 :=
  c4_error_recovery (fun _ => Except.error "boom") [] [] 5 20 [] [] 0 0 "boom"
    (by decide) rfl

/-- C6: the two query builders disagree on the phrase-quoting convention
for a multi-word term: `_construct_query` (the `search_papers` path) wraps
it in percent-encoded quotes, while the inline builder of `search` wraps
it in literal quote marks (and parenthesizes the group); the two builders
are not extensionally equal. -/
theorem c6_query_builders_disagree :
    _construct_query (some ["mechanistic interpretability"]) none =
      "%22mechanistic interpretability%22" ∧
    searchBuildQuery (some ["mechanistic interpretability"]) none =
      "(\"mechanistic interpretability\")" ∧
    _construct_query (some ["mechanistic interpretability"]) none ≠
      searchBuildQuery (some ["mechanistic interpretability"]) none := by
  refine ⟨?_, ?_, ?_⟩ <;> decide

/-- C8: saving an enriched record through the Content Cache persistence
contract and loading it back under its id returns the record unchanged. -/
theorem c8_roundtrip (cache : Cache) (paper_data : PaperData)
    (henr : isEnriched paper_data = true) :
    _load_summary_from_file (save_summary_to_file cache paper_data) paper_data.id =
      some paper_data := by
  rw [save_summary_to_file, if_pos henr, _load_summary_from_file, List.lookup]
  simp

/-- C8 witness: round trip of a concrete enriched record through an empty
cache. -/
theorem c8_roundtrip_witness :
    _load_summary_from_file (save_summary_to_file [] enrichedRec) enrichedRec.id =
      some enrichedRec :=
  c8_roundtrip [] enrichedRec (by decide)

/-- C9: `_convert_result` always copies `result.categories` into both the
`keywords` and the `categories` field of the produced record, so the two
fields are the same value on every converted result. -/
theorem c9_keywords_eq_categories (result : RawResult) :
    (_convert_result result).keywords = (_convert_result result).categories := rfl

/-- C9 witness at a concrete raw result. -/
theorem c9_keywords_eq_categories_witness :
    (_convert_result rawA).keywords = (_convert_result rawA).categories :=
  c9_keywords_eq_categories rawA

/-- C1 counterexample: the Ledger Store is empty, the Content Cache holds
a record for the candidate id whose `summary` is whitespace-only, hence
NOT enriched per the §3 invariant; the claim predicts a fresh conversion,
but `search_papers` reuses the cached record verbatim (the code gates
reuse on Python truthiness of `summary`, which does not strip). -/
theorem c1_counterexample :
    (search_papers pagesA [] cacheWS (some ["q"]) none 5 20).1 = [cachedWS] ∧
    isEnriched cachedWS = false ∧
    cachedWS ≠ _convert_result rawA := by
  refine ⟨?_, by decide, by decide⟩
  simp [search_papers, searchLoop, _construct_query, joinSep, containsSpaceChar,
    processPage, mark_papers_as_seen, pagesA]
  all_goals decide

/-- C1 (amended): a cached record is reused verbatim iff its `summary` is
non-null and non-empty WITHOUT trimming — a whitespace-only summary is
treated as reusable; only `summary` null or the empty string forces a
fresh conversion.  The persistence half of the claim stands: saving a
record whose summary is whitespace-only is a no-op on the Content Cache. -/
theorem c1_cache_reuse_gate (cache : Cache) (paper_id : String) (r : RawResult)
    (p : PaperData) (hload : _load_summary_from_file cache paper_id = some p) :
    (∀ s, p.summary = some s → s ≠ "" → mergeCandidate cache paper_id r = p) ∧
    ((p.summary = none ∨ p.summary = some "") →
      mergeCandidate cache paper_id r = _convert_result r) ∧
    (∀ (c : Cache) (q : PaperData), q.summary = some "   " →
      save_summary_to_file c q = c) := by
  refine ⟨?_, ?_, ?_⟩
  · intro s hs hne
    rw [mergeCandidate, hload]
    simp only
    rw [if_pos ((pyTruthy_some_iff s).mpr hne ▸ (by rw [hs]))]
  · intro hnull
    rw [mergeCandidate, hload]
    simp only
    rcases hnull with hn | hn <;> rw [if_neg (by rw [hn]; decide)]
  · intro c q hq
    rw [save_summary_to_file, if_neg ?_]
    rw [isEnriched, hq]
    decide

/-- C1 witness: with the whitespace-only cached record, the merge reuses
it verbatim, and saving it back to the cache is a no-op. -/
theorem c1_cache_reuse_gate_witness :
    mergeCandidate cacheWS "2401.00001v1" rawA = cachedWS ∧
    save_summary_to_file cacheWS cachedWS = cacheWS :=
  ⟨(c1_cache_reuse_gate cacheWS "2401.00001v1" rawA cachedWS rfl).1 "   " rfl (by decide),
   (c1_cache_reuse_gate cacheWS "2401.00001v1" rawA cachedWS rfl).2.2 cacheWS cachedWS rfl⟩

/-- C5 counterexample: with both criteria absent, `search` still contacts
the remote service (its single request is issued unconditionally) and
returns whatever unseen records the service yields for the empty query —
it is neither empty-result-immediately nor remote-free, so the claim
fails for the `search` entry point. -/
theorem c5_counterexample :
    (search (fun _ => [rawA]) [] [] none none 10).1 ≠ [] ∧
    (search (fun _ => [rawA]) [] [] none none 10).2.2 ≠ 0 := by
  constructor <;> decide

/-- C5 (amended): with both criteria absent or empty, `search_papers`
returns the empty list immediately, leaves the Ledger Store untouched and
issues zero remote requests; `search`, by contrast, always issues exactly
one remote request, empty query or not. -/
theorem c5_empty_query (pages : Nat → Page) (seen : List String) (cache : Cache)
    (search_terms categories : Option (List String)) (max_results request_size : Nat)
    (hterms : search_terms = none ∨ search_terms = some [])
    (hcats : categories = none ∨ categories = some []) :
    search_papers pages seen cache search_terms categories max_results request_size =
      ([], seen, 0) ∧
    ∀ (f : String → List RawResult) (s : List String) (c : Cache) (m : Nat),
      (search f s c search_terms categories m).2.2 = 1 := by
  have hq : _construct_query search_terms categories = "" := by
    rcases hterms with h1 | h1 <;> rcases hcats with h2 | h2 <;> subst h1 <;> subst h2 <;> rfl
  constructor
  · simp only [search_papers, if_pos hq]
  · intro f s c m
    rfl

/-- C5 witness: both criteria `none` at a concrete service and ledger. -/
theorem c5_empty_query_witness :
    search_papers pagesA ["x"] [] none none 10 20 = ([], ["x"], 0) ∧
    ∀ (f : String → List RawResult) (s : List String) (c : Cache) (m : Nat),
      (search f s c none none m).2.2 = 1 :=
  c5_empty_query pagesA ["x"] [] none none 10 20 (Or.inl rfl) (Or.inl rfl)

theorem c7_call1_eval :
    search_papers pagesAB [] [] (some ["q"]) none 1 20 =
      ([_convert_result rawA], ["2401.00001v1"], 1) := by
  simp [search_papers, searchLoop, _construct_query, joinSep, containsSpaceChar,
    processPage, mark_papers_as_seen, mergeCandidate, _load_summary_from_file,
    pagesAB, rawA, List.insert]
  all_goals decide

/-- C7 counterexample: `max_results = 1` and one fresh page `[A, B]`.  The
first call accepts `A`, hits its quota mid-page and never processes `B`;
the second call — same arguments, same remote results, no intervening
mutation — returns `B`, not the empty list.  The claim's premise holds,
its conclusion fails. -/
theorem c7_counterexample :
    (search_papers pagesAB
      (search_papers pagesAB [] [] (some ["q"]) none 1 20).2.1
      [] (some ["q"]) none 1 20).1 ≠ [] := by
  rw [c7_call1_eval]
  simp [search_papers, searchLoop, _construct_query, joinSep, containsSpaceChar,
    processPage, mark_papers_as_seen, mergeCandidate, _load_summary_from_file,
    pagesAB, rawA, rawB]
  all_goals decide

/-- C7 (amended): if the first `search_papers` call returns fewer than
`max_results` records (it stopped on stall, exhaustion or failure, so no
mid-page quota break occurred), then a second call with identical
arguments, the same remote pages and no intervening mutation of ledger or
cache returns the empty list: everything the first call returned is in
the Ledger Store when the second call starts, provided the Content Cache
satisfies its storage contract. -/
theorem c7_idempotent_when_under_quota (pages : Nat → Page) (seen : List String)
    (cache : Cache) (search_terms categories : Option (List String))
    (max_results request_size : Nat) (hwf : CacheWF cache)
    (hunder : (search_papers pages seen cache search_terms categories max_results
      request_size).1.length < max_results) :
    (search_papers pages
      (search_papers pages seen cache search_terms categories max_results request_size).2.1
      cache search_terms categories max_results request_size).1 = [] := by
  by_cases hq : _construct_query search_terms categories = ""
  · simp only [search_papers, if_pos hq]
  · have hunder2 : (searchLoop pages seen cache max_results request_size
        [] [] 0 0).1.length < max_results := by
      simpa only [search_papers, if_neg hq] using hunder
    have hseen2 : (search_papers pages seen cache search_terms categories max_results
        request_size).2.1 =
        mark_papers_as_seen seen
          (searchLoop pages seen cache max_results request_size [] [] 0 0).1 := by
      simp only [search_papers, if_neg hq]
    rw [hseen2]
    simp only [search_papers, if_neg hq]
    apply searchLoop_stalls
    intro j hj hpre
    exact searchLoop_post pages seen cache max_results request_size hwf [] [] 0 0
      (by intro x hx; cases hx) hunder2 j (by omega) hpre

/-- C7 witness: a remote service with no results at all; the first call
returns nothing (under quota), and the second call returns the empty
list. -/
theorem c7_idempotent_witness :
    (search_papers (fun _ => Except.ok ([] : List RawResult))
      (search_papers (fun _ => Except.ok ([] : List RawResult)) [] [] (some ["q"]) none
        1 20).2.1
      [] (some ["q"]) none 1 20).1 = [] := by
  apply c7_idempotent_when_under_quota (fun _ => Except.ok ([] : List RawResult))
    [] [] (some ["q"]) none 1 20 (by intro e he; cases he)
  simp [search_papers, searchLoop, _construct_query, joinSep, containsSpaceChar]

/-- C10 counterexample: `get_paper_by_id` yields a record whose `pdf_url`
is non-null (`some ""`), yet `get_pdf_url` raises `ValueError` instead of
returning that URL: the code gates on Python truthiness of `pdf_url`, not
on nullity. -/
theorem c10_counterexample :
    (get_paper_by_id (fun _ => none) [] cachePdfEmpty "p2").1 = some pdfEmptyRec ∧
    pdfEmptyRec.pdf_url = some "" ∧
    (get_pdf_url (fun _ => none) [] cachePdfEmpty "p2").1 =
      Except.error "Paper with ID p2 not found or has no PDF URL." := by
  refine ⟨by decide, rfl, by rfl⟩

/-- C10 (amended): `get_pdf_url` returns the paper's PDF URL exactly when
`get_paper_by_id` yields a record whose `pdf_url` is non-null and
non-empty, and raises `ValueError` (the `Except.error` outcome, the only
operation in the embedding that signals failure this way) when the paper
is not found, has no `pdf_url`, or has an empty one. -/
theorem c10_pdf_url_contract (fetchById : String → Option RawResult) (seen : List String)
    (cache : Cache) (paper_id : String) :
    (∀ p u, (get_paper_by_id fetchById seen cache paper_id).1 = some p →
      p.pdf_url = some u → u ≠ "" →
      (get_pdf_url fetchById seen cache paper_id).1 = Except.ok u) ∧
    (∀ p, (get_paper_by_id fetchById seen cache paper_id).1 = some p →
      (p.pdf_url = none ∨ p.pdf_url = some "") →
      (get_pdf_url fetchById seen cache paper_id).1 =
        Except.error ("Paper with ID " ++ paper_id ++ " not found or has no PDF URL.")) ∧
    ((get_paper_by_id fetchById seen cache paper_id).1 = none →
      (get_pdf_url fetchById seen cache paper_id).1 =
        Except.error ("Paper with ID " ++ paper_id ++ " not found or has no PDF URL.")) := by
  refine ⟨?_, ?_, ?_⟩
  · intro p u hp hu hne
    have hfalse : u.data.isEmpty = false := by
      cases hbe : u.data.isEmpty with
      | false => rfl
      | true => exact absurd ((string_eq_empty_iff u).mpr (List.isEmpty_iff.mp hbe)) hne
    simp [get_pdf_url, hp, hu, hfalse]
  · intro p hp hnull
    rcases hnull with hn | hn <;> simp [get_pdf_url, hp, hn]
  · intro hp
    simp [get_pdf_url, hp]

/-- C10 witness: a cached record with a usable PDF URL is returned via
`Except.ok`. -/
theorem c10_pdf_url_contract_witness :
    (get_pdf_url (fun _ => none) [] cacheGood "p3").1 =
      Except.ok "https://arxiv.org/pdf/p3.pdf" :=
  (c10_pdf_url_contract (fun _ => none) [] cacheGood "p3").1 goodRec
    "https://arxiv.org/pdf/p3.pdf" rfl rfl (by decide)
